import Mathlib

/-!
Verification of the Full Score behavioral-telemetry engine (fullscore.js).

The development shallowly embeds the source's `Beat` codec (BEAT serialization)
and the `Rhythm` session-lifecycle engine (slot storage, save/rotate, batch,
restore, cross-tab sync) as executable Lean definitions, and settles the
specification claims against them.  JavaScript machine semantics that matter
here (32-bit wrap of `<<`, `Math.abs`, string truthiness, `+string` numeric
coercion, object-as-hash-table lookup) are modelled explicitly.
-/

namespace Fullscore

/-! ### JavaScript primitives -/

/-- A JavaScript object used as a string-keyed hash table, modelled as an
association list with at most one entry per key. -/
abbrev JsObj := List (String × String)

/-- Lookup `o[k]`: `none` models `undefined`. -/
def jsGet : JsObj → String → Option String
  | [], _ => none
  | e :: rest, k => if e.1 = k then some e.2 else jsGet rest k

/-- JavaScript truthiness of a lookup result: `undefined` and the empty
string are falsy, every other string is truthy. -/
def truthy : Option String → Bool
  | none => false
  | some s => s ≠ ""

/-- Remove the binding of `k`, if any. -/
def jsErase : JsObj → String → JsObj
  | [], _ => []
  | e :: rest, k => if e.1 = k then jsErase rest k else e :: jsErase rest k

/-- Assignment `o[k] = v`: the object binds each key to at most one value, so
the new binding replaces any previous one for `k` and leaves the rest. -/
def jsSet (o : JsObj) (k v : String) : JsObj := (k, v) :: jsErase o k

/-- `ToInt32` conversion of ECMA-262: reduce modulo `2^32` into
`[-2^31, 2^31)`. -/
def toInt32 (x : Int) : Int :=
  let m := x % 4294967296
  if m < 2147483648 then m else m - 4294967296

/-- JavaScript `x << 5`: both operands pass through `ToInt32`; the shifted
value is truncated back to a signed 32-bit integer. -/
def jsShl5 (x : Int) : Int := toInt32 (toInt32 x * 32)

/-- One step of the source's hash loop
`hash = ((hash << 5) + hash) + p.charCodeAt(i)`: only the shift wraps to
32 bits, the two additions are exact double-precision additions. -/
def djb2Step (h : Int) (c : Char) : Int := jsShl5 h + h + (c.toNat : Int)

/-- The hash value the source computes for a path (`Beat.page`). -/
def djb2 (p : String) : Int := p.data.foldl djb2Step 5381

/-- The base-36 digit alphabet of the source. -/
def b36char (n : Nat) : Char :=
  "0123456789abcdefghijklmnopqrstuvwxyz".data.getD n '0'

/-- The source's encoding loop: emit `limit` base-36 digits of `n`, least
significant digit first (`result += chars[n % 36], n = Math.floor(n / 36)`). -/
def b36 : Nat → Nat → String
  | 0, _ => ""
  | k + 1, n => String.singleton (b36char (n % 36)) ++ b36 k (n / 36)

/-- Truncation width by path length: `p.length <= 7 ? 3 : p.length <= 14 ? 4 : 5`. -/
def hashLimit (p : String) : Nat :=
  if p.length ≤ 7 then 3 else if p.length ≤ 14 then 4 else 5

/-- The hash body of a non-premapped path: base-36 digits of
`Math.abs(hash)`. -/
def hashBody (p : String) : String := b36 (hashLimit p) (djb2 p).natAbs

/-! ### BEAT codec state -/

/-- Token alphabet (BEAT.TOK): page, time, loop marker. -/
def tokP : String := "!"

/-- Time token marker. -/
def tokT : String := "~"

/-- Loop (collision-disambiguation) marker character. -/
def tokL : Char := '.'

/-- Default tick unit BEAT.TIC (milliseconds). -/
def TIC : Nat := 100

/-- Default page premap BEAT.MAP.P. -/
def defaultPages : JsObj := [("/", "home"), ("/english/", "en")]

/-- The `Beat` encoder state: token sequence, session-local hash table,
premap, clock, tick unit.  Times are in milliseconds. -/
structure Beat where
  score : List String
  table : JsObj
  pages : JsObj
  tick : Nat
  timeUnit : Nat

/-- A fresh `new Beat()` at clock value `now`. -/
def mkBeat (now : Nat) : Beat :=
  { score := [], table := [], pages := defaultPages, tick := now, timeUnit := TIC }

/-- `Beat.time()`: append a Time token only when at least one whole tick
elapsed, and reset the clock in that case. -/
def Beat.time (b : Beat) (now : Nat) : Beat :=
  let elapsed := (now - b.tick) / b.timeUnit
  if elapsed > 0 then
    { b with score := b.score ++ [tokT ++ toString elapsed], tick := now }
  else b

/-- The token candidate with `d` prepended loop markers. -/
def dotsToken (result : String) (d : Nat) : String :=
  tokP ++ String.mk (List.replicate d tokL) ++ result

/-- Exit condition of the collision loop
`while (table[token] && table[token] !== p)`. -/
def pageExit (table : JsObj) (p result : String) (d : Nat) : Bool :=
  !(truthy (jsGet table (dotsToken result d)) && jsGet table (dotsToken result d) ≠ some p)

/-- Length of the longest key of the table. -/
def maxKeyLen (table : JsObj) : Nat :=
  (table.map (fun e => e.1.length)).foldr max 0

/-- The collision loop run with explicit fuel, returning the marker count at
which it stopped. -/
def pageLoop (table : JsObj) (p result : String) : Nat → Nat → Nat
  | 0, d => d
  | fuel + 1, d => if pageExit table p result d then d else pageLoop table p result fuel (d + 1)

/-- Number of loop markers the source's collision loop prepends; the fuel
`maxKeyLen table + 1` is shown sufficient below, so this is exactly the first
`d` satisfying the loop's exit condition. -/
def pageDots (table : JsObj) (p result : String) : Nat :=
  pageLoop table p result (maxKeyLen table + 1) 0

/-- `Beat.page(p)`: record the elapsed time, then either push the premapped
token or hash the path, disambiguate collisions, register and push the token. -/
def Beat.page (b : Beat) (now : Nat) (p : String) : Beat :=
  let b1 := b.time now
  if truthy (jsGet b1.pages p) then
    { b1 with score := b1.score ++ [tokP ++ (jsGet b1.pages p).getD ""] }
  else
    let result := hashBody p
    let token := dotsToken result (pageDots b1.table p result)
    { b1 with table := jsSet b1.table token p,
              score := b1.score ++ [token] }

/-- `Beat.flow()`: concatenation of the token sequence. -/
def Beat.flow (b : Beat) : String := String.join b.score

/-! ### Basic facts about the collision loop -/

theorem dotsToken_length (result : String) (d : Nat) :
    (dotsToken result d).length = 1 + d + result.length := by
  simp only [dotsToken, String.length_append]
  have h1 : tokP.length = 1 := rfl
  have h2 : (String.mk (List.replicate d tokL)).length = d := by
    simp [String.length]
  omega

theorem dotsToken_inj (result : String) {d e : Nat} (h : dotsToken result d = dotsToken result e) :
    d = e := by
  have := congrArg String.length h
  rw [dotsToken_length, dotsToken_length] at this
  omega

theorem jsGet_isSome_keyLen {table : JsObj} {k : String} {v : String}
    (h : jsGet table k = some v) : k.length ≤ maxKeyLen table := by
  induction table with
  | nil => simp [jsGet] at h
  | cons e rest ih =>
    simp only [jsGet, List.find?] at h
    by_cases he : e.1 = k
    · simp [maxKeyLen, ← he]
    · simp only [he, decide_False] at h
      have := ih (by simpa [jsGet] using h)
      simp only [maxKeyLen, List.map, List.foldr] at *
      omega

theorem pageExit_of_large (table : JsObj) (p result : String) (d : Nat)
    (hd : maxKeyLen table < 1 + d + result.length) :
    pageExit table p result d = true := by
  unfold pageExit
  cases hg : jsGet table (dotsToken result d) with
  | none => simp [truthy, hg]
  | some v =>
    exfalso
    have := jsGet_isSome_keyLen hg
    rw [dotsToken_length] at this
    omega

theorem pageLoop_exit (table : JsObj) (p result : String) :
    ∀ fuel d, (∀ e, d + fuel ≤ e → pageExit table p result e = true) →
      pageExit table p result (pageLoop table p result fuel d) = true := by
  intro fuel
  induction fuel with
  | zero => intro d h; simpa [pageLoop] using h d (by omega)
  | succ n ih =>
    intro d h
    unfold pageLoop
    by_cases hx : pageExit table p result d = true
    · simp [hx]
    · simp only [hx, Bool.false_eq_true, if_false]
      exact ih (d + 1) (fun e he => h e (by omega))

theorem pageDots_exit (table : JsObj) (p result : String) :
    pageExit table p result (pageDots table p result) = true := by
  apply pageLoop_exit
  intro e he
  exact pageExit_of_large table p result e (by omega)

theorem pageLoop_min (table : JsObj) (p result : String) :
    ∀ fuel d e, d ≤ e → e < pageLoop table p result fuel d →
      pageExit table p result e = false := by
  intro fuel
  induction fuel with
  | zero => intro d e hde hlt; simp [pageLoop] at hlt; omega
  | succ n ih =>
    intro d e hde hlt
    unfold pageLoop at hlt
    by_cases hx : pageExit table p result d = true
    · simp [hx] at hlt; omega
    · simp only [hx, Bool.false_eq_true, if_false] at hlt
      rcases Nat.eq_or_lt_of_le hde with h | h
      · subst h; simpa using hx
      · exact ih (d + 1) e (by omega) hlt

theorem pageDots_min (table : JsObj) (p result : String) (e : Nat)
    (he : e < pageDots table p result) : pageExit table p result e = false :=
  pageLoop_min table p result _ 0 e (Nat.zero_le e) he

/-! ### Hash-table lemmas -/

theorem jsGet_mem {table : JsObj} {k v : String} (h : jsGet table k = some v) :
    ∃ e ∈ table, e.1 = k ∧ e.2 = v := by
  induction table with
  | nil => simp [jsGet] at h
  | cons e rest ih =>
    unfold jsGet at h
    by_cases he : e.1 = k
    · simp only [he, if_true, Option.some.injEq] at h
      exact ⟨e, List.mem_cons_self e rest, he, h⟩
    · simp only [he, if_false] at h
      rcases ih h with ⟨x, hx, hxk, hxv⟩
      exact ⟨x, List.mem_cons_of_mem e hx, hxk, hxv⟩

theorem jsGet_jsErase (o : JsObj) (k k' : String) (hne : k' ≠ k) :
    jsGet (jsErase o k) k' = jsGet o k' := by
  induction o with
  | nil => rfl
  | cons e rest ih =>
    unfold jsErase
    by_cases hek : e.1 = k
    · have hek' : ¬ e.1 = k' := fun h => hne (h ▸ hek ▸ rfl : k' = k)
      simp only [hek, if_true]
      rw [ih]
      simp [jsGet, hek']
    · simp only [hek, if_false]
      unfold jsGet
      by_cases hek' : e.1 = k'
      · simp [hek']
      · simp [hek', ih]

theorem jsGet_jsSet (table : JsObj) (k v k' : String) :
    jsGet (jsSet table k v) k' = if k' = k then some v else jsGet table k' := by
  unfold jsSet
  by_cases hk' : k' = k
  · simp [jsGet, hk']
  · have hkk' : ¬ k = k' := fun h => hk' h.symm
    simp only [hk', if_false, jsGet, hkk']
    exact jsGet_jsErase table k k' hk'

theorem jsErase_mem {o : JsObj} {k : String} {e : String × String}
    (h : e ∈ jsErase o k) : e ∈ o := by
  induction o with
  | nil => simp [jsErase] at h
  | cons x rest ih =>
    unfold jsErase at h
    by_cases hx : x.1 = k
    · simp only [hx, if_true] at h
      exact List.mem_cons_of_mem x (ih h)
    · simp only [hx, if_false, List.mem_cons] at h
      rcases h with h | h
      · exact h ▸ List.mem_cons_self x rest
      · exact List.mem_cons_of_mem x (ih h)

theorem jsSet_mem {table : JsObj} {k v : String} {e : String × String}
    (h : e ∈ jsSet table k v) : e ∈ table ∨ e = (k, v) := by
  unfold jsSet at h
  rcases List.mem_cons.mp h with h | h
  · right; exact h
  · left; exact jsErase_mem h

/-- All values stored in the table are truthy (nonempty) strings. -/
def goodTable (table : JsObj) : Prop := ∀ e ∈ table, e.2 ≠ ""

/-! ### Page-recorder invariants (claims C4, C10) -/

/-- On a good table, the collision loop exits only on an absent token or on
the token already mapped to `p`. -/
theorem pageExit_cases {table : JsObj} {p result : String} {d : Nat}
    (hg : goodTable table) (hx : pageExit table p result d = true) :
    jsGet table (dotsToken result d) = none ∨
      jsGet table (dotsToken result d) = some p := by
  unfold pageExit at hx
  cases hget : jsGet table (dotsToken result d) with
  | none => exact Or.inl rfl
  | some v =>
    right
    rw [hget] at hx
    by_cases hv : v = ""
    · exfalso
      rcases jsGet_mem hget with ⟨e, he, _, hev⟩
      exact hg e he (hev.trans hv)
    · simp only [truthy, hv, Bool.not_eq_true', Bool.and_eq_false_iff] at hx
      rcases hx with hx | hx
      · simp [hv] at hx
      · simpa using hx

/-- One `Beat.page` call on a good table with a nonempty path preserves every
existing binding of the session hash table. -/
theorem page_preserves_bindings {b : Beat} {p : String} (now : Nat)
    (hg : goodTable b.table) {tok q : String}
    (h : jsGet b.table tok = some q) :
    jsGet ((b.page now p).table) tok = some q := by
  unfold Beat.page
  have htime : (b.time now).table = b.table := by
    unfold Beat.time
    by_cases he : (now - b.tick) / b.timeUnit > 0 <;> simp [he]
  by_cases hmap : truthy (jsGet (b.time now).pages p) = true
  · simpa [hmap, htime] using h
  · simp only [hmap, Bool.false_eq_true, if_false]
    rw [htime] at *
    set result := hashBody p with hres
    set d := pageDots b.table p result with hd
    set token := dotsToken result d with htok
    show jsGet (jsSet b.table token p) tok = some q
    rw [jsGet_jsSet]
    by_cases htt : tok = token
    · subst htt
      have hx := pageDots_exit b.table p result
      rcases pageExit_cases hg hx with hc | hc
      · rw [← htok] at hc; rw [hc] at h; exact absurd h (by simp)
      · rw [← htok] at hc; rw [hc] at h
        simp only [if_pos rfl]
        exact h
    · simpa [htt] using h

/-- One `Beat.page` call with a nonempty path keeps the table good. -/
theorem page_preserves_good {b : Beat} {p : String} (now : Nat)
    (hg : goodTable b.table) (hp : p ≠ "") :
    goodTable ((b.page now p).table) := by
  unfold Beat.page
  have htime : (b.time now).table = b.table := by
    unfold Beat.time
    by_cases he : (now - b.tick) / b.timeUnit > 0 <;> simp [he]
  by_cases hmap : truthy (jsGet (b.time now).pages p) = true
  · simpa [hmap, htime] using hg
  · simp only [hmap, Bool.false_eq_true, if_false]
    rw [htime]
    intro e he
    rcases jsSet_mem he with he' | he'
    · exact hg e he'
    · rw [he']; exact hp

/-- A sequence of `Beat.page` calls: each event is a clock value and a path. -/
def runPages (b : Beat) : List (Nat × String) → Beat
  | [] => b
  | e :: es => runPages (b.page e.1 e.2) es

theorem runPages_append (b : Beat) (l₁ l₂ : List (Nat × String)) :
    runPages b (l₁ ++ l₂) = runPages (runPages b l₁) l₂ := by
  induction l₁ generalizing b with
  | nil => rfl
  | cons e es ih => simp [runPages, ih]

theorem runPages_preserves_bindings {b : Beat} {evs : List (Nat × String)}
    (hg : goodTable b.table) (hne : ∀ e ∈ evs, e.2 ≠ "")
    {tok q : String} (h : jsGet b.table tok = some q) :
    jsGet ((runPages b evs).table) tok = some q := by
  induction evs generalizing b with
  | nil => exact h
  | cons e es ih =>
    unfold runPages
    exact ih (page_preserves_good e.1 hg (hne e (List.mem_cons_self e es)))
      (fun x hx => hne x (List.mem_cons_of_mem e hx))
      (page_preserves_bindings e.1 hg h)

theorem runPages_preserves_good {b : Beat} {evs : List (Nat × String)}
    (hg : goodTable b.table) (hne : ∀ e ∈ evs, e.2 ≠ "") :
    goodTable ((runPages b evs).table) := by
  induction evs generalizing b with
  | nil => exact hg
  | cons e es ih =>
    exact ih (page_preserves_good e.1 hg (hne e (List.mem_cons_self e es)))
      (fun x hx => hne x (List.mem_cons_of_mem e hx))

/-- A token was registered to path `p` at some point of the run. -/
def assignedAt (b : Beat) (evs : List (Nat × String)) (tok p : String) : Prop :=
  ∃ n, jsGet ((runPages b (evs.take n)).table) tok = some p

theorem mkBeat_goodTable (t0 : Nat) : goodTable (mkBeat t0).table := by
  intro e he
  simp [mkBeat] at he

theorem assigned_final {t0 : Nat} {evs : List (Nat × String)}
    (hne : ∀ e ∈ evs, e.2 ≠ "") {tok p : String}
    (h : assignedAt (mkBeat t0) evs tok p) :
    jsGet ((runPages (mkBeat t0) evs).table) tok = some p := by
  rcases h with ⟨n, hn⟩
  have hsplit : evs = evs.take n ++ evs.drop n := (List.take_append_drop n evs).symm
  rw [hsplit, runPages_append]
  have hgood : goodTable ((runPages (mkBeat t0) (evs.take n)).table) :=
    runPages_preserves_good (mkBeat_goodTable t0)
      (fun x hx => hne x (List.take_subset n evs hx))
  exact runPages_preserves_bindings hgood
    (fun x hx => hne x (List.drop_subset n evs hx)) hn

/-- C4 (amended): for every sequence of `page()` calls on nonempty paths, the
session-local token table is stable and injective: once a token is registered
to a path it keeps that binding for the rest of the session, so two paths
registered under the same token are equal and looking the token up at the end
returns exactly the path that produced it.  (The nonemptiness restriction is
forced by the counterexample: the empty path is stored as a falsy table value,
which a later colliding path silently overwrites.) -/
theorem C4_token_table_injective (t0 : Nat) (evs : List (Nat × String))
    (hne : ∀ e ∈ evs, e.2 ≠ "") (tok p q : String)
    (hp : assignedAt (mkBeat t0) evs tok p)
    (hq : assignedAt (mkBeat t0) evs tok q) :
    p = q ∧ jsGet ((runPages (mkBeat t0) evs).table) tok = some p := by
  have h1 := assigned_final hne hp
  have h2 := assigned_final hne hq
  refine ⟨?_, h1⟩
  rw [h1] at h2
  exact Option.some.inj h2

set_option maxRecDepth 8000 in
/-- C4 witness: two nonempty paths recorded in one session; the token "!1tm"
registered for "/a" still resolves to "/a" after the second call. -/
theorem C4_witness :
    (∀ e ∈ [((0 : Nat), "/a"), ((0 : Nat), "/test")], e.2 ≠ "") ∧
    ("/a" = "/a" ∧
      jsGet ((runPages (mkBeat 0) [(0, "/a"), (0, "/test")]).table) "!1tm" = some "/a") :=
  ⟨by decide,
   C4_token_table_injective 0 [(0, "/a"), (0, "/test")] (by decide) "!1tm" "/a" "/a"
     ⟨1, by decide⟩ ⟨1, by decide⟩⟩

set_option maxRecDepth 8000 in
/-- C4, counterexample to the claim as stated: in one session the empty path
and the path "bye" hash to the same token body "h54"; both are registered
under the token "!h54" (the loop does not disambiguate because the empty
string is a falsy table value), and the final lookup no longer returns the
path that first produced the token. -/
theorem C4_counterexample :
    assignedAt (mkBeat 0) [(0, ""), (0, "bye")] "!h54" "" ∧
    assignedAt (mkBeat 0) [(0, ""), (0, "bye")] "!h54" "bye" ∧
    ("" : String) ≠ "bye" ∧
    jsGet ((runPages (mkBeat 0) [(0, ""), (0, "bye")]).table) "!h54" = some "bye" :=
  ⟨⟨1, by decide⟩, ⟨2, by decide⟩, by decide, by decide⟩

theorem pageExit_false_isSome {table : JsObj} {p result : String} {d : Nat}
    (hx : pageExit table p result d = false) :
    ∃ v, jsGet table (dotsToken result d) = some v ∧ v ≠ "" ∧ v ≠ p := by
  unfold pageExit at hx
  cases hget : jsGet table (dotsToken result d) with
  | none => rw [hget] at hx; simp [truthy] at hx
  | some v =>
    rw [hget] at hx
    simp only [Bool.not_eq_false', Bool.and_eq_true, truthy] at hx
    refine ⟨v, rfl, by simpa using hx.1, ?_⟩
    intro hvp
    exact (by simpa [hvp] using hx.2)

/-- C10 (amended): the collision-disambiguation loop of `Beat.page` always
terminates after at most `table.length` marker prepends, and the token it
stops at is unregistered, registered to the empty string, or already mapped
to the path being recorded.  (The empty-string case is forced by the
counterexample below; on tables whose values are all nonempty paths the
original two-way disjunction holds.) -/
theorem C10_collision_loop_terminates (table : JsObj) (p result : String) :
    pageDots table p result ≤ table.length ∧
    (jsGet table (dotsToken result (pageDots table p result)) = none ∨
     jsGet table (dotsToken result (pageDots table p result)) = some "" ∨
     jsGet table (dotsToken result (pageDots table p result)) = some p) := by
  constructor
  · by_contra hgt
    push_neg at hgt
    set N := table.length with hN
    have hall : ∀ d, d ≤ N → ∃ v, jsGet table (dotsToken result d) = some v := by
      intro d hd
      rcases pageExit_false_isSome (pageDots_min table p result d (by omega)) with ⟨v, hv, _, _⟩
      exact ⟨v, hv⟩
    have hmaps : ∀ i ∈ Finset.range (N + 1),
        dotsToken result i ∈ (table.map Prod.fst).toFinset := by
      intro i hi
      rcases hall i (by simpa using Nat.lt_succ_iff.mp (Finset.mem_range.mp hi)) with ⟨v, hv⟩
      rcases jsGet_mem hv with ⟨e, he, hek, _⟩
      simp only [List.mem_toFinset, List.mem_map]
      exact ⟨e, he, hek⟩
    have hinj : Set.InjOn (fun i => dotsToken result i) (Finset.range (N + 1)) :=
      fun i _ j _ h => dotsToken_inj result h
    have hcard := Finset.card_le_card_of_injOn _ hmaps hinj
    rw [Finset.card_range] at hcard
    have hle : (table.map Prod.fst).toFinset.card ≤ N := by
      calc (table.map Prod.fst).toFinset.card ≤ (table.map Prod.fst).length :=
            (table.map Prod.fst).toFinset_card_le
        _ = N := by simp
    omega
  · have hx := pageDots_exit table p result
    unfold pageExit at hx
    cases hget : jsGet table (dotsToken result (pageDots table p result)) with
    | none => exact Or.inl rfl
    | some v =>
      rw [hget] at hx
      by_cases hv : v = ""
      · exact Or.inr (Or.inl (by rw [hv]))
      · right; right
        simp only [truthy, Bool.not_eq_true', Bool.and_eq_false_iff] at hx
        rcases hx with hx | hx
        · simp [hv] at hx
        · simpa using hx

/-- C10, counterexample to the claim as stated: on a table holding the token
with an empty-string value, the loop stops immediately at a token that is
registered (to the empty string) yet not mapped to the path being recorded. -/
theorem C10_counterexample :
    pageDots [("!abc", "")] "/x" "abc" = 0 ∧
    jsGet [("!abc", "")] (dotsToken "abc" 0) ≠ none ∧
    jsGet [("!abc", "")] (dotsToken "abc" 0) ≠ some "/x" := by
  refine ⟨by decide, by decide, by decide⟩

/-! ### The page hash formula (claim C5) -/

/-- Modelled from the spec (claim C5): the hash body as the spec words it,
namely the mathematical DJB2 value `h = h * 33 + charCode` reduced to
unsigned 32-bit, base-36 encoded and truncated to the same 3/4/5 widths. -/
def specHashBody (p : String) : String :=
  b36 (hashLimit p) ((p.data.foldl (fun h c => h * 33 + c.toNat) 5381) % 4294967296)

theorem b36_length (k n : Nat) : (b36 k n).length = k := by
  induction k generalizing n with
  | zero => rfl
  | succ m ih =>
    unfold b36
    rw [String.length_append, ih]
    have h1 : (String.singleton (b36char (n % 36))).length = 1 := rfl
    omega

set_option maxRecDepth 8000 in
/-- C5, counterexample to the claim as stated: on the claim's own scenario
path "/products/laptop" the source's hash value is negative, and `Math.abs`
(what the code computes) disagrees with reduction to unsigned 32-bit (what
the claim states), so the emitted 5-character body differs from the claimed
formula. -/
theorem C5_counterexample :
    djb2 "/products/laptop" = -384794329 ∧
    hashBody "/products/laptop" = "d7h3d" ∧
    specHashBody "/products/laptop" = "rrk0o" ∧
    hashBody "/products/laptop" ≠ specHashBody "/products/laptop" := by
  refine ⟨by decide, by decide, by decide, by decide⟩

/-- C5 (amended): for every non-premapped path the page token body is the
base-36 encoding (least significant digit first) of the absolute value of the
source's 32-bit-shift DJB2 value — not of its unsigned 32-bit reduction —
truncated to exactly 3 characters when the path length is at most 7, 4 when
at most 14, and 5 otherwise, so the body never exceeds 5 characters; the
token pushed by `Beat.page` is that body behind the page marker and the
collision markers. -/
theorem C5_hash_token (b : Beat) (now : Nat) (p : String)
    (hmap : truthy (jsGet b.pages p) = false) :
    (b.page now p).score = (b.time now).score ++
      [dotsToken (hashBody p) (pageDots b.table p (hashBody p))] ∧
    (hashBody p).length = hashLimit p ∧
    hashLimit p ≤ 5 ∧
    (p.length ≤ 7 → hashLimit p = 3) ∧
    (7 < p.length → p.length ≤ 14 → hashLimit p = 4) ∧
    (14 < p.length → hashLimit p = 5) := by
  have htime_pages : (b.time now).pages = b.pages := by
    unfold Beat.time
    by_cases he : (now - b.tick) / b.timeUnit > 0 <;> simp [he]
  have htime_table : (b.time now).table = b.table := by
    unfold Beat.time
    by_cases he : (now - b.tick) / b.timeUnit > 0 <;> simp [he]
  refine ⟨?_, b36_length _ _, ?_, ?_, ?_, ?_⟩
  · unfold Beat.page
    simp only [htime_pages, htime_table, hmap, Bool.false_eq_true, if_false]
  · unfold hashLimit
    by_cases h7 : p.length ≤ 7
    · simp [h7]
    · by_cases h14 : p.length ≤ 14 <;> simp [h7, h14]
  · intro h7; simp [hashLimit, h7]
  · intro h7 h14
    have hn7 : ¬ p.length ≤ 7 := by omega
    simp [hashLimit, h14, hn7]
  · intro h14
    have hn7 : ¬ p.length ≤ 7 := by omega
    have hn14 : ¬ p.length ≤ 14 := by omega
    simp [hashLimit, hn7, hn14]

set_option maxRecDepth 8000 in
/-- C5 witness: the scenario paths — "/about" (6 characters) takes the
3-character body "724", "/products/laptop" takes a 5-character body — at a
fresh encoder, with the premap miss discharged by evaluation. -/
theorem C5_witness :
    truthy (jsGet (mkBeat 0).pages "/about") = false ∧
    ((mkBeat 0).page 0 "/about").score = ((mkBeat 0).time 0).score ++
      [dotsToken (hashBody "/about") (pageDots (mkBeat 0).table "/about" (hashBody "/about"))] ∧
    (hashBody "/about").length = hashLimit "/about" ∧
    hashLimit "/about" = 3 ∧
    hashBody "/about" = "724" ∧
    hashLimit "/products/laptop" = 5 :=
  ⟨by decide,
   (C5_hash_token (mkBeat 0) 0 "/about" (by decide)).1,
   (C5_hash_token (mkBeat 0) 0 "/about" (by decide)).2.1,
   (C5_hash_token (mkBeat 0) 0 "/about" (by decide)).2.2.2.1 (by decide),
   by decide,
   (C5_hash_token (mkBeat 0) 0 "/products/laptop" (by decide)).2.2.2.2.2 (by decide)⟩

/-! ### Timed recording (claim C6) -/

/-- A fresh encoder with a configured tick unit (`new Beat({timeUnit: u})`). -/
def beatWith (t0 u : Nat) : Beat :=
  { score := [], table := [], pages := defaultPages, tick := t0, timeUnit := u }

/-- The tick count a `Beat.time` call at clock `now` emits, if any: the
elapsed-tick computation of the source, observed. -/
def emitTicks (b : Beat) (now : Nat) : Option Nat :=
  let e := (now - b.tick) / b.timeUnit
  if e > 0 then some e else none

/-- A sequence of `recordTime()` calls at the given clock values. -/
def runTime (b : Beat) : List Nat → Beat
  | [] => b
  | t :: ts => runTime (b.time t) ts

/-- The tick counts emitted along a sequence of calls. -/
def emitsRun (b : Beat) : List Nat → List Nat
  | [] => []
  | t :: ts => (emitTicks b t).toList ++ emitsRun (b.time t) ts

theorem time_of_no_emit {b : Beat} {now : Nat}
    (h : (now - b.tick) / b.timeUnit = 0) : b.time now = b := by
  unfold Beat.time
  simp [h]

theorem time_of_emit {b : Beat} {now : Nat}
    (h : 0 < (now - b.tick) / b.timeUnit) :
    (b.time now).score = b.score ++ [tokT ++ toString ((now - b.tick) / b.timeUnit)] ∧
    (b.time now).tick = now := by
  unfold Beat.time
  simp [h]

theorem lt_div_add_one_mul (a u : Nat) (hu : 0 < u) : a < (a / u + 1) * u := by
  have h1 := Nat.div_add_mod a u
  have h2 := Nat.mod_lt a hu
  have h3 : (a / u + 1) * u = u * (a / u) + u := by ring
  omega

/-- The score grows by exactly one Time token per emitted count. -/
theorem runTime_score (b : Beat) (ts : List Nat) :
    (runTime b ts).score = b.score ++ (emitsRun b ts).map (fun e => tokT ++ toString e) := by
  induction ts generalizing b with
  | nil => simp [runTime, emitsRun]
  | cons t rest ih =>
    have hrun : runTime b (t :: rest) = runTime (b.time t) rest := rfl
    have hcons : emitsRun b (t :: rest) = (emitTicks b t).toList ++ emitsRun (b.time t) rest := rfl
    rw [hrun, hcons, ih]
    by_cases he : (t - b.tick) / b.timeUnit > 0
    · have hsc := (time_of_emit he).1
      have hsome : emitTicks b t = some ((t - b.tick) / b.timeUnit) := by
        unfold emitTicks
        simp [he]
      rw [hsc, hsome]
      simp
    · have h0 : (t - b.tick) / b.timeUnit = 0 := Nat.eq_zero_of_not_pos he
      have hnone : emitTicks b t = none := by
        unfold emitTicks
        simp [h0]
      rw [time_of_no_emit h0, hnone]
      simp

theorem sum_bound {u e s tb t T : Nat} (h1 : tb ≤ t) (h2 : t ≤ T)
    (h3 : e * u ≤ t - tb) (h4 : s * u ≤ T - t) : (e + s) * u ≤ T - tb := by
  have hx : (e + s) * u = e * u + s * u := by ring
  omega

theorem step_bound {u e s k tb t T : Nat} (h1 : tb ≤ t) (h2 : t ≤ T)
    (h3 : t - tb < (e + 1) * u)
    (h4 : T - t < (s + k) * u ∨ (k = 0 ∧ T = t)) :
    T - tb < (e + s + (k + 1)) * u := by
  have hx : (e + s + (k + 1)) * u = (e + 1) * u + (s + k) * u := by ring
  have hy : (s + 0) * u = s * u := by ring
  rcases h4 with h4 | ⟨hk, ht⟩
  · omega
  · subst hk; subst ht; omega

theorem runTime_inv (ts : List Nat) :
    ∀ (b : Beat) (last : Nat), 0 < b.timeUnit → List.Chain (· ≤ ·) last ts →
      b.tick ≤ last → last - b.tick < b.timeUnit →
      (runTime b ts).timeUnit = b.timeUnit ∧
      b.tick ≤ (runTime b ts).tick ∧
      (runTime b ts).tick ≤ ts.getLastD last ∧
      ts.getLastD last - (runTime b ts).tick < b.timeUnit ∧
      (emitsRun b ts).sum * b.timeUnit ≤ (runTime b ts).tick - b.tick ∧
      ((runTime b ts).tick - b.tick <
        ((emitsRun b ts).sum + (emitsRun b ts).length) * b.timeUnit ∨
       ((emitsRun b ts).length = 0 ∧ (runTime b ts).tick = b.tick)) := by
  induction ts with
  | nil =>
    intro b last hu _ hbl hlb
    refine ⟨rfl, le_refl _, hbl, hlb, by simp [emitsRun], Or.inr ⟨by simp [emitsRun], rfl⟩⟩
  | cons t rest ih =>
    intro b last hu hchain hbl hlb
    have hlt : last ≤ t := (List.chain_cons.mp hchain).1
    have hchain2 : List.Chain (· ≤ ·) t rest := (List.chain_cons.mp hchain).2
    have hbt : b.tick ≤ t := le_trans hbl hlt
    have hrun : runTime b (t :: rest) = runTime (b.time t) rest := rfl
    have hgl : (t :: rest).getLastD last = rest.getLastD t := by
      cases rest <;> rfl
    have hb1u : (b.time t).timeUnit = b.timeUnit := by
      unfold Beat.time
      by_cases hx : (t - b.tick) / b.timeUnit > 0 <;> simp [hx]
    by_cases he : (t - b.tick) / b.timeUnit > 0
    case pos =>
      obtain ⟨e, hedef⟩ : ∃ e, (t - b.tick) / b.timeUnit = e := ⟨_, rfl⟩
      rw [hedef] at he
      have hb1t : (b.time t).tick = t := by
        unfold Beat.time
        rw [hedef]
        simp [he]
      have hsome : emitTicks b t = some e := by
        unfold emitTicks
        rw [hedef]
        simp [he]
      have hemit : emitsRun b (t :: rest) = e :: emitsRun (b.time t) rest := by
        calc emitsRun b (t :: rest)
            = (emitTicks b t).toList ++ emitsRun (b.time t) rest := rfl
          _ = e :: emitsRun (b.time t) rest := by rw [hsome]; rfl
      rcases ih (b.time t) t (by rw [hb1u]; exact hu) hchain2
          (le_of_eq hb1t) (by rw [hb1t, hb1u]; simpa using hu) with
        ⟨hud, htick_le, htick_last, hlast_tick, hsum, hstrict⟩
      rw [hb1t] at htick_le hsum hstrict
      rw [hb1u] at hud hlast_tick hsum hstrict
      rw [hrun, hemit, hgl]
      have heu1 : e * b.timeUnit ≤ t - b.tick := by
        rw [← hedef]
        exact Nat.div_mul_le_self _ _
      have heu2 : t - b.tick < (e + 1) * b.timeUnit := by
        rw [← hedef]
        exact lt_div_add_one_mul _ _ hu
      refine ⟨hud, le_trans hbt htick_le, htick_last, hlast_tick, ?_, ?_⟩
      · simp only [List.sum_cons]
        exact sum_bound hbt htick_le heu1 hsum
      · left
        simp only [List.sum_cons, List.length_cons]
        exact step_bound hbt htick_le heu2 hstrict
    case neg =>
      have h0 : (t - b.tick) / b.timeUnit = 0 := Nat.eq_zero_of_not_pos he
      have hb1 : b.time t = b := time_of_no_emit h0
      have htbu : t - b.tick < b.timeUnit := (Nat.div_eq_zero_iff hu).mp h0
      have hnone : emitTicks b t = none := by
        unfold emitTicks
        simp [h0]
      have hemit : emitsRun b (t :: rest) = emitsRun (b.time t) rest := by
        calc emitsRun b (t :: rest)
            = (emitTicks b t).toList ++ emitsRun (b.time t) rest := rfl
          _ = emitsRun (b.time t) rest := by rw [hnone]; rfl
      rw [hrun, hemit, hgl, hb1]
      exact ih b t hu hchain2 hbt htbu

/-- C6, counterexample to the claim as stated: three calls at 199 ms, 398 ms
and 597 ms on a 100 ms tick unit each discard just under one tick of
remainder; the emitted counts sum to 3 while `floor(597 / 100) = 5`, so the
total drifts by two ticks, beyond the claimed one-tick tolerance. -/
theorem C6_counterexample :
    emitsRun (beatWith 0 100) [199, 398, 597] = [1, 1, 1] ∧
    (emitsRun (beatWith 0 100) [199, 398, 597]).sum + 1 <
      (List.getLastD [199, 398, 597] 0 - 0) / 100 := by
  refine ⟨by decide, by decide⟩

/-- C6 (amended): a `recordTime()` call appends a Time token exactly when at
least one whole tick elapsed, carrying that floor tick count, and emits
nothing on a zero gap; over any monotone call sequence the emitted tick
counts undercount: their sum is at most `floor(total_elapsed / unit)`, and
the shortfall is bounded by the number of emitted Time tokens (each reset
discards less than one tick), not by the single tick the claim states. -/
theorem C6_tick_sum (u t0 : Nat) (ts : List Nat) (hu : 0 < u)
    (hchain : List.Chain (· ≤ ·) t0 ts) :
    (∀ (b : Beat) (now : Nat), (now - b.tick) / b.timeUnit = 0 → b.time now = b) ∧
    (∀ (b : Beat) (now : Nat), 0 < (now - b.tick) / b.timeUnit →
      (b.time now).score = b.score ++ [tokT ++ toString ((now - b.tick) / b.timeUnit)]) ∧
    (runTime (beatWith t0 u) ts).score =
      (emitsRun (beatWith t0 u) ts).map (fun e => tokT ++ toString e) ∧
    (emitsRun (beatWith t0 u) ts).sum ≤ (ts.getLastD t0 - t0) / u ∧
    (ts.getLastD t0 - t0) / u ≤
      (emitsRun (beatWith t0 u) ts).sum + (emitsRun (beatWith t0 u) ts).length := by
  have hb0u : (beatWith t0 u).timeUnit = u := rfl
  have hb0t : (beatWith t0 u).tick = t0 := rfl
  rcases runTime_inv ts (beatWith t0 u) t0 (by rw [hb0u]; exact hu) hchain
      (le_of_eq hb0t) (by rw [hb0t]; simpa using hu) with
    ⟨_, htick_le, htick_last, hlast_tick, hsum, hstrict⟩
  rw [hb0t] at htick_le hsum hstrict
  rw [hb0u] at hlast_tick hsum hstrict
  refine ⟨fun b now h => time_of_no_emit h, fun b now h => (time_of_emit h).1, ?_, ?_, ?_⟩
  · rw [runTime_score]
    rfl
  · rw [Nat.le_div_iff_mul_le hu]
    have h1 : (runTime (beatWith t0 u) ts).tick - t0 ≤ ts.getLastD t0 - t0 := by
      omega
    omega
  · set S := (emitsRun (beatWith t0 u) ts).sum
    set K := (emitsRun (beatWith t0 u) ts).length
    set T := (runTime (beatWith t0 u) ts).tick
    have hdiv : (ts.getLastD t0 - t0) / u ≤ S + K ↔
        ts.getLastD t0 - t0 < (S + K + 1) * u := by
      rw [Nat.div_le_iff_le_mul_add_pred hu]
      constructor
      · intro h
        have hx : (S + K + 1) * u = u * (S + K) + u := by ring
        omega
      · intro h
        have hx : (S + K + 1) * u = u * (S + K) + u := by ring
        omega
    rw [hdiv]
    rcases hstrict with h | ⟨hk, ht⟩
    · have hx : (S + K + 1) * u = (S + K) * u + u := by ring
      omega
    · have hx : (S + K + 1) * u = (S + K) * u + u := by ring
      have hs0 : S = 0 := by
        have : emitsRun (beatWith t0 u) ts = [] := List.length_eq_zero.mp hk
        simp [S, this]
      omega

/-- C6 witness: the counterexample sequence itself, run through the amended
bound — three emissions, sum 3, total 5 ticks, within the three-token
shortfall allowance. -/
theorem C6_witness :
    0 < 100 ∧ List.Chain (· ≤ ·) 0 [199, 398, 597] ∧
    ((runTime (beatWith 0 100) [199, 398, 597]).score =
      (emitsRun (beatWith 0 100) [199, 398, 597]).map (fun e => tokT ++ toString e) ∧
    (emitsRun (beatWith 0 100) [199, 398, 597]).sum ≤
      (List.getLastD [199, 398, 597] 0 - 0) / 100 ∧
    (List.getLastD [199, 398, 597] 0 - 0) / 100 ≤
      (emitsRun (beatWith 0 100) [199, 398, 597]).sum +
        (emitsRun (beatWith 0 100) [199, 398, 597]).length) :=
  ⟨by decide,
   List.Chain.cons (by decide) (List.Chain.cons (by decide)
     (List.Chain.cons (by decide) List.Chain.nil)),
   (C6_tick_sum 100 0 [199, 398, 597] (by decide)
     (List.Chain.cons (by decide) (List.Chain.cons (by decide)
       (List.Chain.cons (by decide) List.Chain.nil)))).2.2⟩

/-! ### Rhythm engine: constants, serialization and storage -/

/-- RHYTHM.MAX: maximum session slot count. -/
def MAX : Nat := 6

/-- RHYTHM.CAP: maximum serialized session length in bytes. -/
def CAP : Nat := 3500

/-- RHYTHM.ACT: session recovery window in seconds. -/
def ACT : Nat := 600

/-- RHYTHM.ADD.TAB: the tab-switch tracking addon flag (default true). -/
def ADD_TAB : Bool := true

/-- The numbered slot pool 1..MAX scanned in fixed order. -/
def slotIdxs : List Nat := List.range' 1 MAX

/-- The in-memory session object `this.data`; the slot field is the numeric
part of the storage key `rhythm_<i>`. -/
structure Data where
  slot : Nat
  time : Nat
  device : Nat
  referrer : Nat
  clicks : Nat
  scrolls : Nat
deriving DecidableEq

/-- Browser facts the engine reads when creating a session: current path,
detected device class, classified referrer. -/
structure Env where
  pathname : String
  device : Nat
  referrer : Nat

/-- The storage surface and engine references: slot records, the
sessionStorage slot pointer, the current session, the codec. -/
structure St where
  slots : Nat → Option String
  sess : Option Nat
  data : Option Data
  beat : Option Beat

/-- `String.split('_')` of JavaScript, at the character level. -/
def splitChars (sep : Char) : List Char → List (List Char)
  | [] => [[]]
  | c :: cs =>
    match splitChars sep cs with
    | [] => [[c]]
    | g :: gs => if c = sep then [] :: g :: gs else (c :: g) :: gs

/-- Split a record line on the underscore delimiter. -/
def splitU (s : String) : List String := (splitChars '_' s.data).map String.mk

/-- `Array.join(sep)` of JavaScript. -/
def joinWith (sep : String) : List String → String
  | [] => ""
  | [s] => s
  | s :: rest => s ++ sep ++ joinWith sep rest

/-- Drop the first `n` characters (`String.substring(n)`). -/
def dropStr (s : String) (n : Nat) : String := String.mk (s.data.drop n)

/-- Decimal digit value of a character. -/
def digitVal (c : Char) : Option Nat :=
  if '0' ≤ c ∧ c ≤ '9' then some (c.toNat - 48) else none

/-- Parse a digit string left to right. -/
def parseDigits : List Char → Nat → Option Nat
  | [], acc => some acc
  | c :: cs, acc =>
    match digitVal c with
    | some d => parseDigits cs (acc * 10 + d)
    | none => none

/-- JavaScript unary `+` on a string field: the empty string coerces to 0, a
digit string to its value, anything else to NaN (modelled as `none`). -/
def jsPlus (s : String) : Option Nat :=
  if s = "" then some 0 else parseDigits s.data 0

/-- `+parts[i]`: a missing field is `undefined`, which coerces to NaN. -/
def fieldNum (parts : List String) (i : Nat) : Option Nat :=
  match parts.get? i with
  | none => none
  | some s => jsPlus s

/-- The ten serialized session fields
`ping_security_addon_device_referrer_startTime_duration_clicks_scrolls_flow`. -/
def recFields (d : Data) (nowSec : Nat) (flow : String) : List String :=
  ["0", "0", "0", toString d.device, toString d.referrer, toString d.time,
   toString (nowSec - d.time), toString d.clicks, toString d.scrolls, flow]

/-- The serialized session line `Rhythm.save` builds and writes. -/
def record (d : Data) (nowSec : Nat) (flow : String) : String :=
  joinWith "_" (recFields d nowSec flow)

/-- `ses[0] === '0'`: the record is an OPEN (ping 0) session. -/
def openRec (s : String) : Bool := s.data.head? = some '0'

/-- The last-touch guard of `Rhythm.batch`:
`Math.floor(Date.now()/1000) - (+parts[5] + +parts[6]) <= RHYTHM.ACT`.
A NaN on either field makes the comparison false. -/
def withinACT (nowSec : Nat) (ses : String) : Bool :=
  let parts := splitU ses
  match fieldNum parts 5, fieldNum parts 6 with
  | some a, some b => nowSec - (a + b) ≤ ACT
  | _, _ => false

/-- Start time plus duration (`+parts[5] + +parts[6]`), NaN as `none`. -/
def actOf (ses : String) : Option Nat :=
  let parts := splitU ses
  match fieldNum parts 5, fieldNum parts 6 with
  | some a, some b => some (a + b)
  | _, _ => none

/-! ### Rhythm.batch -/

/-- Result of a batch pass: the storage surface, the collected copies, and
whether the pass returned early on a session inside the recovery window. -/
structure BatchOut where
  slots : Nat → Option String
  sent : List String
  aborted : Bool

/-- The slot scan of `Rhythm.batch`: close each OPEN record (flip ping to 1)
and collect it, unless the pass is non-forced and the record is inside the
recovery window, in which case the whole pass returns at once. -/
def batchLoop (nowSec : Nat) (force : Bool) :
    List Nat → (Nat → Option String) → List String → BatchOut
  | [], slots, acc => { slots := slots, sent := acc, aborted := false }
  | i :: rest, slots, acc =>
    match slots i with
    | some ses =>
      if openRec ses then
        if force = false ∧ withinACT nowSec ses = true then
          { slots := slots, sent := acc, aborted := true }
        else
          let copy := "1" ++ dropStr ses 1
          batchLoop nowSec force rest (Function.update slots i (some copy)) (acc ++ [copy])
      else batchLoop nowSec force rest slots acc
    | none => batchLoop nowSec force rest slots acc

/-- `Rhythm.clean`: delete every ping-1 record in the slot pool. -/
def cleanSlots (slots : Nat → Option String) : Nat → Option String :=
  fun i =>
    if 1 ≤ i ∧ i ≤ MAX then
      match slots i with
      | some s => if s.data.head? = some '1' then none else some s
      | none => none
    else slots i

/-- Result of `Rhythm.batch`: final storage and the transmitted payload
(`none` when nothing was sent). -/
structure BatchResult where
  slots : Nat → Option String
  sent : List String
  payload : Option String

/-- `Rhythm.batch(force)`: scan the pool, abort on a recoverable session,
otherwise join the collected copies with newlines, send, and clean. -/
def batchRun (slots : Nat → Option String) (nowSec : Nat) (force : Bool) : BatchResult :=
  let out := batchLoop nowSec force slotIdxs slots []
  if out.aborted then { slots := out.slots, sent := out.sent, payload := none }
  else if out.sent.isEmpty then { slots := out.slots, sent := out.sent, payload := none }
  else { slots := cleanSlots out.slots, sent := out.sent,
         payload := some (joinWith "\n" out.sent) }

/-! ### Rhythm.save and rotation -/

/-- `'___' + this.data.name.slice(7)`: the cross-tab marker naming the
current slot. -/
def tabMarker (cur : Nat) : String := "___" ++ toString cur

/-- Suffix test (`String.endsWith`). -/
def endsU (s suf : String) : Bool := suf.data.isSuffixOf s.data

/-- One step of the tab addon's scan (`act > prevAct` update; NaN never
wins a comparison). -/
def findPrevStep (slots : Nat → Option String) (cur : Nat)
    (acc : Option Nat × Int) (i : Nat) : Option Nat × Int :=
  if i = cur then acc else
  match slots i with
  | some ses =>
    if openRec ses then
      match actOf ses with
      | some a => if (a : Int) > acc.2 then (some i, (a : Int)) else acc
      | none => acc
    else acc
  | none => acc

/-- The scan for the most recently active other OPEN slot (tab addon):
maximize start time plus duration over slots other than the current one. -/
def findPrev (slots : Nat → Option String) (cur : Nat) : Option Nat :=
  (slotIdxs.foldl (findPrevStep slots cur) (none, -1)).1

/-- The tab-switch addon step at the head of `Rhythm.save`: append the
current slot's marker to the most recently active other OPEN record, if it is
not already there and the result stays within the byte cap. -/
def addonStep (slots : Nat → Option String) (hasBeat : Bool) (d : Data) :
    Nat → Option String :=
  if ADD_TAB = true ∧ hasBeat = true ∧ d.clicks + d.scrolls > 0 then
    match findPrev slots d.slot with
    | some pn =>
      match slots pn with
      | some prevSes =>
        if endsU prevSes (tabMarker d.slot) = false then
          let newSave := prevSes ++ tabMarker d.slot
          if newSave.length ≤ CAP then Function.update slots pn (some newSave) else slots
        else slots
      | none => slots
    | none => slots
  else slots

/-- A stored value is free when absent or empty (`if (!this.get(name))`). -/
def slotFree (slots : Nat → Option String) (i : Nat) : Bool :=
  match slots i with
  | none => true
  | some s => s = ""

/-- `Rhythm.session`'s slot finder: first free slot in fixed order. -/
def findFree (slots : Nat → Option String) : Option Nat :=
  slotIdxs.find? (fun i => slotFree slots i)

/-- A fresh session object for a slot (`this.data = {...}` in
`Rhythm.session`). -/
def mkData (slot nowSec : Nat) (env : Env) : Data :=
  { slot := slot, time := nowSec, device := env.device, referrer := env.referrer,
    clicks := 0, scrolls := 0 }

/-- The flow the current codec serializes (`this.beat?.flow() || ''`). -/
def beatFlowOf (st : St) : String :=
  match st.beat with
  | some b => b.flow
  | none => ""

/-- The allocation part of `Rhythm.session(true)`: find a free slot (forcing
a batch flush when none is free and falling back to slot 1), point
sessionStorage at it,, build a fresh session and a fresh codec that records
the current page.  The trailing `this.save()` of the source is performed by
the caller (`saveGo`). -/
def rotateState (env : Env) (nowMs : Nat) (st : St) : St :=
  let alloc : (Nat → Option String) × Nat :=
    match findFree st.slots with
    | some n => (st.slots, n)
    | none => ((batchRun st.slots (nowMs / 1000) true).slots, 1)
  let d := mkData alloc.2 (nowMs / 1000) env
  let b := (mkBeat nowMs).page nowMs env.pathname
  { slots := alloc.1, sess := some alloc.2, data := some d, beat := some b }

/-- `Rhythm.save`, with fuel bounding the save/rotate recursion: run the tab
addon, write the serialized line, and when the line exceeds the byte cap hand
over to `Rhythm.session(true)` (= `rotateState` followed by the next save). -/
def saveGo (env : Env) (nowMs : Nat) : Nat → St → St
  | 0, st => st
  | fuel + 1, st =>
    match st.data with
    | none => st
    | some d =>
      let slots1 := addonStep st.slots st.beat.isSome d
      let line := record d (nowMs / 1000) (beatFlowOf st)
      let slots2 := Function.update slots1 d.slot (some line)
      let st2 : St := { st with slots := slots2 }
      if line.length > CAP then saveGo env nowMs fuel (rotateState env nowMs st2) else st2

/-- `Rhythm.save` at the fuel every reachable state needs (one write plus at
most one rotation and its inner write). -/
def save (env : Env) (nowMs : Nat) (st : St) : St := saveGo env nowMs 2 st

/-- The heartbeat body: save when the session is older than half the
recovery window. -/
def heartbeat (env : Env) (nowMs : Nat) (st : St) : St :=
  match st.data with
  | some d => if nowMs / 1000 - d.time > ACT / 2 then save env nowMs st else st
  | none => st

/-! ### Rhythm.session restoration and cross-tab sync -/

/-- The fields `Rhythm.session` reads back from a stored record, each through
the JavaScript numeric coercion (`none` = NaN), plus the flow tail
(`parts.slice(9).join('_')`). -/
structure Restored where
  time : Option Nat
  device : Option Nat
  referrer : Option Nat
  clicks : Option Nat
  scrolls : Option Nat
  flow : String
deriving DecidableEq

/-- The restoration test and parse of `Rhythm.session` (non-forced path):
a stored record is restored exactly when its first character is '0'. -/
def restoreSession (ses : Option String) : Option Restored :=
  match ses with
  | none => none
  | some s =>
    if s.data.head? = some '0' then
      let parts := splitU s
      some { time := fieldNum parts 5, device := fieldNum parts 3,
             referrer := fieldNum parts 4, clicks := fieldNum parts 7,
             scrolls := fieldNum parts 8,
             flow := joinWith "_" (parts.drop 9) }
    else none

/-- The flow field of a stored record (everything after the 9th delimiter). -/
def flowOf (ses : String) : String := joinWith "_" ((splitU ses).drop 9)

/-- The `rhythm_sync_` storage-event handler: on a targeted notification for
the locally owned OPEN session, reload the codec buffer from the stored flow
and reset the codec clock. -/
def syncFlow (st : St) (target : Nat) (nowMs : Nat) : St :=
  match st.sess with
  | none => st
  | some mine =>
    if mine ≠ target then st
    else
      match st.slots mine with
      | none => st
      | some ses =>
        if ses.data.head? = some '0' then
          let flow := flowOf ses
          let b0 := match st.beat with | some b => b | none => mkBeat nowMs
          { st with beat := some { b0 with score := if flow = "" then [] else [flow],
                                           tick := nowMs } }
        else st

/-! ### Claim C7: restoration rejects only on state -/

/-- C7, counterexample to the claim as stated: the record "0_7" has two
fields, far from the ten the format prescribes, yet restoration accepts it —
the code checks only the first character, never the field count. -/
theorem C7_counterexample :
    (restoreSession (some "0_7")).isSome = true ∧ (splitU "0_7").length < 10 := by
  refine ⟨by decide, by decide⟩

/-- C7 (amended): restoring a stored slot yields a Session exactly when the
record's first character marks the OPEN state; a CLOSED record is rejected
and treated as absent, but the field count is never validated — a record with
missing fields is still restored, its absent numeric fields coercing to NaN. -/
theorem C7_restore_checks_state_only (o : Option String) :
    ((restoreSession o).isSome = true ↔ ∃ s, o = some s ∧ s.data.head? = some '0') ∧
    (∀ s, s.data.head? = some '1' → restoreSession (some s) = none) := by
  constructor
  · constructor
    · intro h
      match o with
      | none => simp [restoreSession] at h
      | some s =>
        refine ⟨s, rfl, ?_⟩
        by_contra hne
        simp [restoreSession, hne] at h
    · rintro ⟨s, rfl, hs⟩
      simp [restoreSession, hs]
  · intro s hs
    have : ¬ s.data.head? = some '0' := by rw [hs]; simp
    simp [restoreSession, this]

/-- C7 witness: a well-formed OPEN record is restored; the claim theorem's
backward direction applied at a concrete record. -/
theorem C7_witness :
    (restoreSession (some "0_0_0_1_2_1000_50_3_4_!abc")).isSome = true :=
  (C7_restore_checks_state_only (some "0_0_0_1_2_1000_50_3_4_!abc")).1.mpr
    ⟨"0_0_0_1_2_1000_50_3_4_!abc", rfl, by decide⟩

/-! ### Claim C8: cross-tab flow sync -/

/-- The state of the C8 counterexample: this tab owns slot 1, whose stored
flow is "!a___2", while the local buffer has advanced to "!a!b". -/
def syncCexSt : St :=
  { slots := Function.update (fun _ => none) 1 (some "0_0_0_0_0_9_1_1_0_!a___2"),
    sess := some 1,
    data := some { slot := 1, time := 9, device := 0, referrer := 0, clicks := 1, scrolls := 0 },
    beat := some { score := ["!a", "!b"], table := [], pages := defaultPages,
                   tick := 0, timeUnit := 100 } }

/-- C8, counterexample to the claim as stated: the handler replaces the local
buffer with the stored flow instead of merging by longest common prefix, so
the pre-merge local flow "!a!b" is not a prefix of the post-merge flow
"!a___2" — append-only growth of the local buffer fails. -/
theorem C8_counterexample :
    ((syncFlow syncCexSt 1 50).beat).map Beat.flow = some "!a___2" ∧
    (syncCexSt.beat).map Beat.flow = some "!a!b" ∧
    ¬ ∃ t, "!a___2" = "!a!b" ++ t := by
  refine ⟨by decide, by decide, ?_⟩
  rintro ⟨t, ht⟩
  have h2 := congrArg String.data ht
  rw [String.data_append] at h2
  have hl : ("!a___2" : String).data = ['!', 'a', '_', '_', '_', '2'] := rfl
  have hr : ("!a!b" : String).data = ['!', 'a', '!', 'b'] := rfl
  rw [hl, hr] at h2
  simp at h2

/-- C8 (amended): on a targeted sync notification for the locally owned OPEN
session, the handler replaces the in-memory buffer wholesale with the stored
flow (no longest-common-prefix computation): afterwards the local flow equals
the remote flow exactly, so nothing is duplicated, but local content that had
advanced beyond the stored record is discarded rather than preserved as a
prefix; storage, the session object and untargeted tabs are untouched. -/
theorem C8_sync_replaces_flow (st : St) (target nowMs mine : Nat) (ses : String)
    (hs : st.sess = some mine) (ht : mine = target)
    (hrec : st.slots mine = some ses) (hopen : ses.data.head? = some '0') :
    ((syncFlow st target nowMs).beat).map Beat.score =
      some (if flowOf ses = "" then [] else [flowOf ses]) ∧
    ((syncFlow st target nowMs).beat).map Beat.flow = some (flowOf ses) ∧
    (syncFlow st target nowMs).slots = st.slots ∧
    (syncFlow st target nowMs).data = st.data ∧
    (∀ (st' : St) (t' n' : Nat), st'.sess = some mine → mine ≠ t' →
       syncFlow st' t' n' = st') := by
  have hrun : syncFlow st target nowMs =
      { st with beat := some { (match st.beat with | some b => b | none => mkBeat nowMs) with
                               score := if flowOf ses = "" then [] else [flowOf ses],
                               tick := nowMs } } := by
    unfold syncFlow
    rw [hs]
    simp only [← ht, ne_eq, not_true_eq_false, if_false, ite_false]
    rw [hrec]
    simp [hopen]
  refine ⟨?_, ?_, ?_, ?_, ?_⟩
  · rw [hrun]; rfl
  · rw [hrun]
    simp only [Option.map_some, Option.some.injEq]
    by_cases hf : flowOf ses = ""
    · simp [Beat.flow, hf, String.join]
    · simp [Beat.flow, hf, String.join]
  · rw [hrun]
  · rw [hrun]
  · intro st' t' n' hs' hne
    unfold syncFlow
    rw [hs']
    simp [hne]

/-- C8 witness: a targeted notification at the counterexample state, showing
the replacement semantics concretely. -/
theorem C8_witness :
    syncCexSt.sess = some 1 ∧
    ((syncFlow syncCexSt 1 50).beat).map Beat.flow =
      some (flowOf "0_0_0_0_0_9_1_1_0_!a___2") :=
  ⟨rfl, (C8_sync_replaces_flow syncCexSt 1 50 1 "0_0_0_0_0_9_1_1_0_!a___2"
    rfl rfl (by decide) (by decide)).2.1⟩

/-! ### Claim C3: the batch pass -/

/-- Every stored OPEN record at this slot is already past the recovery
window (the batch early-return guard cannot fire on it). -/
def staleAt (slots : Nat → Option String) (now i : Nat) : Bool :=
  match slots i with
  | some s => !(openRec s) || !(withinACT now s)
  | none => true

/-- The copies a complete (non-aborted) pass collects, in slot order. -/
def collectCopies (slots : Nat → Option String) : List Nat → List String :=
  List.filterMap (fun i =>
    match slots i with
    | some s => if openRec s then some ("1" ++ dropStr s 1) else none
    | none => none)

theorem batchLoop_preserve (now : Nat) (idxs : List Nat) :
    ∀ (slots : Nat → Option String) (acc : List String) (j : Nat) (s : String),
      slots j = some s → openRec s = true → withinACT now s = true →
      (batchLoop now false idxs slots acc).slots j = some s ∧
      (j ∈ idxs → (batchLoop now false idxs slots acc).aborted = true) := by
  induction idxs with
  | nil =>
    intro slots acc j s hj _ _
    exact ⟨hj, by simp⟩
  | cons i rest ih =>
    intro slots acc j s hj ho hw
    unfold batchLoop
    cases hsi : slots i with
    | none =>
      have hji : j ≠ i := fun h => by rw [h, hsi] at hj; exact Option.noConfusion hj
      rcases ih slots acc j s hj ho hw with ⟨h1, h2⟩
      exact ⟨h1, fun hm => h2 (by rcases List.mem_cons.mp hm with h | h; exact absurd h hji; exact h)⟩
    | some ses =>
      by_cases hop : openRec ses = true
      · by_cases hwi : withinACT now ses = true
        · simp only [hop, if_true, hwi, eq_self_iff_true, and_self, if_true]
          exact ⟨hj, fun _ => trivial⟩
        · have hwif : withinACT now ses = false := by
            simpa using hwi
          simp only [hop, if_true, hwif, Bool.false_eq_true, and_false, if_false]
          have hji : j ≠ i := by
            intro h
            rw [h, hsi] at hj
            have : ses = s := Option.some.inj hj
            rw [this] at hwi
            exact hwi hw
          have hj' : Function.update slots i (some ("1" ++ dropStr ses 1)) j = some s := by
            rw [Function.update_noteq hji]
            exact hj
          rcases ih _ _ j s hj' ho hw with ⟨h1, h2⟩
          exact ⟨h1, fun hm => h2 (by rcases List.mem_cons.mp hm with h | h; exact absurd h hji; exact h)⟩
      · simp only [Bool.not_eq_true] at hop
        simp only [hop, Bool.false_eq_true, if_false]
        have hji : j ≠ i := by
          intro h
          rw [h, hsi] at hj
          have : ses = s := Option.some.inj hj
          rw [this] at hop
          rw [hop] at ho
          exact Bool.noConfusion ho
        rcases ih slots acc j s hj ho hw with ⟨h1, h2⟩
        exact ⟨h1, fun hm => h2 (by rcases List.mem_cons.mp hm with h | h; exact absurd h hji; exact h)⟩

theorem batchLoop_complete (now : Nat) (idxs : List Nat) :
    ∀ (slots : Nat → Option String) (acc : List String),
      (∀ i ∈ idxs, staleAt slots now i = true) → idxs.Nodup →
      (batchLoop now false idxs slots acc).aborted = false ∧
      (batchLoop now false idxs slots acc).sent = acc ++ collectCopies slots idxs ∧
      (∀ i ∈ idxs, ∀ s, slots i = some s →
        (batchLoop now false idxs slots acc).slots i =
          (if openRec s then some ("1" ++ dropStr s 1) else some s)) ∧
      (∀ i, i ∉ idxs → (batchLoop now false idxs slots acc).slots i = slots i) := by
  induction idxs with
  | nil =>
    intro slots acc _ _
    refine ⟨rfl, by simp [collectCopies, batchLoop], ?_, fun i _ => rfl⟩
    intro i hi
    exact absurd hi (List.not_mem_nil i)
  | cons i rest ih =>
    intro slots acc hstale hnd
    have hndr : rest.Nodup := hnd.of_cons
    have hinr : i ∉ rest := (List.nodup_cons.mp hnd).1
    unfold batchLoop
    cases hsi : slots i with
    | none =>
      have hcr : collectCopies slots (i :: rest) = collectCopies slots rest := by
        simp [collectCopies, hsi]
      rcases ih slots acc (fun j hj => hstale j (List.mem_cons_of_mem i hj)) hndr with
        ⟨h1, h2, h3, h4⟩
      refine ⟨h1, by rw [h2, hcr], ?_, ?_⟩
      · intro j hj s hjs
        rcases List.mem_cons.mp hj with h | h
        · rw [h] at hjs; rw [hjs] at hsi; exact Option.noConfusion hsi
        · exact h3 j h s hjs
      · intro j hj
        exact h4 j (fun h => hj (List.mem_cons_of_mem i h))
    | some ses =>
      by_cases hop : openRec ses = true
      · have hwi : withinACT now ses = false := by
          have := hstale i (List.mem_cons_self i rest)
          rw [staleAt, hsi] at this
          simp only [hop, Bool.not_true, Bool.false_or, Bool.not_eq_true'] at this
          exact this
        simp only [hop, if_true, hwi, Bool.false_eq_true, and_false, if_false]
        set copy := "1" ++ dropStr ses 1 with hcopy
        set slots' := Function.update slots i (some copy) with hslots'
        have hstale' : ∀ j ∈ rest, staleAt slots' now j = true := by
          intro j hj
          have hji : j ≠ i := fun h => hinr (by rwa [h] at hj)
          rw [staleAt, hslots', Function.update_noteq hji]
          exact hstale j (List.mem_cons_of_mem i hj)
        have hcr : collectCopies slots (i :: rest) = copy :: collectCopies slots rest := by
          simp [collectCopies, hsi, hop, hcopy]
        have hcr' : collectCopies slots' rest = collectCopies slots rest := by
          unfold collectCopies
          apply List.filterMap_congr
          intro j hj
          rw [hslots', Function.update_noteq (fun h => hinr (by rwa [h] at hj))]
        rcases ih slots' (acc ++ [copy]) hstale' hndr with ⟨h1, h2, h3, h4⟩
        refine ⟨h1, ?_, ?_, ?_⟩
        · rw [h2, hcr', hcr]
          simp
        · intro j hj s hjs
          rcases List.mem_cons.mp hj with h | h
          · subst h
            have hss : s = ses := by rw [hjs] at hsi; exact Option.some.inj hsi
            rw [h4 j hinr, hslots', Function.update_same, hss]
            simp [hop, hcopy]
          · have hji : j ≠ i := fun hh => hinr (by rwa [hh] at h)
            have hjs' : slots' j = some s := by
              rw [hslots', Function.update_noteq hji]; exact hjs
            exact h3 j h s hjs'
        · intro j hj
          have hji : j ≠ i := fun h => hj (h ▸ List.mem_cons_self i rest)
          rw [h4 j (fun h => hj (List.mem_cons_of_mem i h)), hslots',
            Function.update_noteq hji]
      · simp only [Bool.not_eq_true] at hop
        simp only [hop, Bool.false_eq_true, if_false]
        have hcr : collectCopies slots (i :: rest) = collectCopies slots rest := by
          simp [collectCopies, hsi, hop]
        rcases ih slots acc (fun j hj => hstale j (List.mem_cons_of_mem i hj)) hndr with
          ⟨h1, h2, h3, h4⟩
        refine ⟨h1, by rw [h2, hcr], ?_, ?_⟩
        · intro j hj s hjs
          rcases List.mem_cons.mp hj with h | h
          · subst h
            have hss : s = ses := by rw [hjs] at hsi; exact Option.some.inj hsi
            rw [h4 j hinr, hjs, hss]
            simp [hop]
          · exact h3 j h s hjs
        · intro j hj
          exact h4 j (fun h => hj (List.mem_cons_of_mem i h))

theorem batchRun_sent (slots : Nat → Option String) (now : Nat) (force : Bool) :
    (batchRun slots now force).sent = (batchLoop now force slotIdxs slots []).sent := by
  simp only [batchRun]
  split
  · rfl
  · split <;> rfl

theorem copy_head (s : String) : ("1" ++ dropStr s 1).data.head? = some '1' := by
  rw [String.data_append]
  rfl

theorem record_head (d : Data) (n : Nat) (f : String) :
    (record d n f).data.head? = some '0' := by
  unfold record recFields joinWith
  rw [String.data_append]
  rfl

theorem record_ne_empty (d : Data) (n : Nat) (f : String) : record d n f ≠ "" := by
  intro h
  have := record_head d n f
  rw [h] at this
  exact Option.noConfusion this

/-- The state of the C3 counterexample: slot 1 holds an OPEN session still
inside the recovery window at second 1100 (last touched at 1000), slot 2 an
OPEN session last touched at 0, far beyond the window. -/
def c3Slots : Nat → Option String :=
  Function.update (Function.update (fun _ => none) 1 (some "0_0_0_0_0_1000_0_0_0_")) 2
    (some "0_0_0_0_0_0_0_0_0_")

/-- C3, counterexample to the claim as stated: the non-forced pass returns as
soon as it meets the recoverable session in slot 1, so the stale OPEN session
in slot 2 is neither closed nor collected and no delivery is attempted —
the claimed "every stale OPEN session is closed and delivery attempted"
fails. -/
theorem C3_counterexample :
    c3Slots 2 = some "0_0_0_0_0_0_0_0_0_" ∧
    openRec "0_0_0_0_0_0_0_0_0_" = true ∧
    withinACT 1100 "0_0_0_0_0_0_0_0_0_" = false ∧
    (batchRun c3Slots 1100 false).slots 2 = some "0_0_0_0_0_0_0_0_0_" ∧
    (batchRun c3Slots 1100 false).payload = none := by
  refine ⟨by decide, by decide, by decide, by decide, by decide⟩

/-- C3 (amended): the recovery-window boundary behaves as claimed — a session
last touched at `t` is still inside the window (hence preserved, restorable)
at `t + ACT - 1` and outside it (eligible) at `t + ACT + 1` — and every OPEN
session inside the window is preserved untouched by a non-forced pass; but
stale OPEN sessions are only all closed, collected and delivered when no OPEN
session anywhere in the pool is inside the window: the pass stops at the
first recoverable session, skipping delivery and all later slots, rather than
closing every stale session unconditionally. -/
theorem C3_batch_pass (slots : Nat → Option String) (now : Nat) :
    (∀ (ses : String) (t dur : Nat),
       fieldNum (splitU ses) 5 = some t → fieldNum (splitU ses) 6 = some dur →
       withinACT (t + dur + ACT - 1) ses = true ∧
       withinACT (t + dur + ACT + 1) ses = false) ∧
    (∀ j s, j ∈ slotIdxs → slots j = some s → openRec s = true →
       withinACT now s = true →
       (batchRun slots now false).slots j = some s ∧
       (batchRun slots now false).payload = none) ∧
    ((∀ i ∈ slotIdxs, staleAt slots now i = true) →
       (∀ i ∈ slotIdxs, ∀ s, slots i = some s → openRec s = true →
          ("1" ++ dropStr s 1) ∈ (batchRun slots now false).sent ∧
          (batchRun slots now false).slots i = none) ∧
       ((∃ i ∈ slotIdxs, ∃ s, slots i = some s ∧ openRec s = true) →
          (batchRun slots now false).payload =
            some (joinWith "\n" (batchRun slots now false).sent))) := by
  have hACT : ACT = 600 := rfl
  refine ⟨?_, ?_, ?_⟩
  · intro ses t dur h5 h6
    constructor
    · unfold withinACT
      simp only [h5, h6, decide_eq_true_eq]
      omega
    · unfold withinACT
      simp only [h5, h6, decide_eq_false_iff_not]
      omega
  · intro j s hj hs ho hw
    rcases batchLoop_preserve now slotIdxs slots [] j s hs ho hw with ⟨h1, h2⟩
    have ha := h2 hj
    unfold batchRun
    simp only [ha, if_true]
    exact ⟨h1, trivial⟩
  · intro hstale
    have hnd : slotIdxs.Nodup := List.nodup_range' 1 MAX
    rcases batchLoop_complete now slotIdxs slots [] hstale hnd with ⟨h1, h2, h3, h4⟩
    have hsent : (batchLoop now false slotIdxs slots []).sent = collectCopies slots slotIdxs := by
      simpa using h2
    constructor
    · intro i hi s hs ho
      have hmem : ("1" ++ dropStr s 1) ∈ collectCopies slots slotIdxs :=
        List.mem_filterMap.mpr ⟨i, hi, by rw [hs]; simp [ho]⟩
      have hmem' : ("1" ++ dropStr s 1) ∈ (batchLoop now false slotIdxs slots []).sent := by
        rw [hsent]; exact hmem
      have hne : (batchLoop now false slotIdxs slots []).sent.isEmpty = false := by
        cases hx : (batchLoop now false slotIdxs slots []).sent with
        | nil => rw [hx] at hmem'; exact absurd hmem' (List.not_mem_nil _)
        | cons a l => rfl
      constructor
      · rw [batchRun_sent]
        exact hmem'
      · have hout : (batchRun slots now false).slots =
            cleanSlots (batchLoop now false slotIdxs slots []).slots := by
          unfold batchRun
          simp only [h1, Bool.false_eq_true, if_false, hne]
        rw [hout]
        have hsl := h3 i hi s hs
        rw [ho, if_pos rfl] at hsl
        unfold cleanSlots
        rw [hsl]
        have hrange : 1 ≤ i ∧ i ≤ MAX := by
          have := List.mem_range'_1.mp hi
          omega
        simp [hrange.1, hrange.2, copy_head]
    · rintro ⟨i, hi, s, hs, ho⟩
      have hmem : ("1" ++ dropStr s 1) ∈ collectCopies slots slotIdxs :=
        List.mem_filterMap.mpr ⟨i, hi, by rw [hs]; simp [ho]⟩
      have hmem' : ("1" ++ dropStr s 1) ∈ (batchLoop now false slotIdxs slots []).sent := by
        rw [hsent]; exact hmem
      have hne : (batchLoop now false slotIdxs slots []).sent.isEmpty = false := by
        cases hx : (batchLoop now false slotIdxs slots []).sent with
        | nil => rw [hx] at hmem'; exact absurd hmem' (List.not_mem_nil _)
        | cons a l => rfl
      rw [batchRun_sent]
      unfold batchRun
      simp only [h1, Bool.false_eq_true, if_false, hne]

/-- C3 witness: a pool whose single OPEN session (slot 2, last touched at
second 0) is past the window at second 1100 gets closed, collected and
delivered, and the boundary facts hold at an explicit record. -/
theorem C3_witness :
    (fieldNum (splitU "0_0_0_1_2_1000_50_3_4_!abc") 5 = some 1000 ∧
     fieldNum (splitU "0_0_0_1_2_1000_50_3_4_!abc") 6 = some 50 ∧
     withinACT (1000 + 50 + ACT - 1) "0_0_0_1_2_1000_50_3_4_!abc" = true ∧
     withinACT (1000 + 50 + ACT + 1) "0_0_0_1_2_1000_50_3_4_!abc" = false) ∧
    (("1" ++ dropStr "0_0_0_0_0_0_0_0_0_" 1) ∈
       (batchRun (Function.update (fun _ => none) 2 (some "0_0_0_0_0_0_0_0_0_")) 1100 false).sent ∧
     (batchRun (Function.update (fun _ => none) 2 (some "0_0_0_0_0_0_0_0_0_")) 1100 false).slots 2 =
       none) :=
  ⟨⟨by decide, by decide,
    ((C3_batch_pass (fun _ => none) 0).1 "0_0_0_1_2_1000_50_3_4_!abc" 1000 50
      (by decide) (by decide))⟩,
   ((C3_batch_pass (Function.update (fun _ => none) 2 (some "0_0_0_0_0_0_0_0_0_")) 1100).2.2
      (by decide)).1 2 (by decide) "0_0_0_0_0_0_0_0_0_" (by decide) (by decide)⟩

/-! ### Claims C1, C2, C9: save, rotation, heartbeat -/
theorem addonStep_zero (slots : Nat → Option String) (hb : Bool) (d : Data)
    (h : d.clicks + d.scrolls = 0) : addonStep slots hb d = slots := by
  unfold addonStep
  rw [h]
  simp

theorem findPrevStep_ne (slots : Nat → Option String) (cur : Nat)
    (acc : Option Nat × Int) (i : Nat)
    (hacc : ∀ j, acc.1 = some j → j ≠ cur) :
    ∀ j, (findPrevStep slots cur acc i).1 = some j → j ≠ cur := by
  intro j hj
  unfold findPrevStep at hj
  by_cases hic : i = cur
  · exact hacc j (by rwa [if_pos hic] at hj)
  · rw [if_neg hic] at hj
    cases hsi : slots i with
    | none => simp only [hsi] at hj; exact hacc j hj
    | some ses =>
      simp only [hsi] at hj
      by_cases hop : openRec ses = true
      · rw [if_pos hop] at hj
        cases hact : actOf ses with
        | none => simp only [hact] at hj; exact hacc j hj
        | some a =>
          simp only [hact] at hj
          by_cases hgt : (a : Int) > acc.2
          · rw [if_pos hgt] at hj
            have hij : (some i : Option Nat) = some j := hj
            have : i = j := Option.some.inj hij
            rw [← this]
            exact hic
          · rw [if_neg hgt] at hj
            exact hacc j hj
      · simp only [Bool.not_eq_true] at hop
        rw [hop] at hj
        simp only [Bool.false_eq_true, if_false] at hj
        exact hacc j hj

theorem findPrev_foldl_ne (slots : Nat → Option String) (cur : Nat) :
    ∀ (l : List Nat) (acc : Option Nat × Int),
      (∀ j, acc.1 = some j → j ≠ cur) →
      ∀ j, (l.foldl (findPrevStep slots cur) acc).1 = some j → j ≠ cur := by
  intro l
  induction l with
  | nil => intro acc hacc j hj; exact hacc j hj
  | cons i rest ih =>
    intro acc hacc j hj
    exact ih (findPrevStep slots cur acc i) (findPrevStep_ne slots cur acc i hacc) j hj

theorem findPrev_ne (slots : Nat → Option String) (cur : Nat) {pn : Nat}
    (h : findPrev slots cur = some pn) : pn ≠ cur :=
  findPrev_foldl_ne slots cur slotIdxs (none, -1) (fun _ hj => Option.noConfusion hj) pn h

theorem addonStep_cases (slots : Nat → Option String) (hb : Bool) (d : Data) (i : Nat) :
    addonStep slots hb d i = slots i ∨
    (i ≠ d.slot ∧ ∃ s, slots i = some s ∧
       addonStep slots hb d i = some (s ++ tabMarker d.slot)) := by
  unfold addonStep
  by_cases hc : (ADD_TAB = true ∧ hb = true ∧ d.clicks + d.scrolls > 0)
  · rw [if_pos hc]
    cases hp : findPrev slots d.slot with
    | none => left; simp only [hp]
    | some pn =>
      have hpn : pn ≠ d.slot := findPrev_ne slots d.slot hp
      cases hps : slots pn with
      | none => left; simp only [hp, hps]
      | some prevSes =>
        by_cases hend : endsU prevSes (tabMarker d.slot) = false
        · by_cases hlen : (prevSes ++ tabMarker d.slot).length ≤ CAP
          · by_cases hip : i = pn
            · right
              subst hip
              refine ⟨hpn, prevSes, hps, ?_⟩
              simp only [hp, hps, hend, if_true, if_pos hlen]
              exact Function.update_same _ _ _
            · left
              simp only [hp, hps, hend, if_true, if_pos hlen]
              exact Function.update_noteq hip _ _
          · left; simp only [hp, hps, hend, if_true, if_neg hlen]
        · left
          have hend' : endsU prevSes (tabMarker d.slot) = true := by
            simpa using hend
          simp only [hp, hps, hend', Bool.true_eq_false, if_false]
  · rw [if_neg hc]; left; rfl

/-- The storage surface immediately after the write of `Rhythm.save`: the tab
addon may have touched another slot and the serialized line lands in the
current one. -/
def writeSlots (nowMs : Nat) (st : St) (d : Data) : Nat → Option String :=
  Function.update (addonStep st.slots st.beat.isSome d) d.slot
    (some (record d (nowMs / 1000) (beatFlowOf st)))

/-- The fresh codec a rotation builds: a new encoder that records the current
page. -/
def rotBeat (env : Env) (nowMs : Nat) : Beat := (mkBeat nowMs).page nowMs env.pathname

/-- The record the rotated session immediately persists to its new slot. -/
def rotLine (env : Env) (nowMs : Nat) (j : Nat) : String :=
  record (mkData j (nowMs / 1000) env) (nowMs / 1000) (rotBeat env nowMs).flow

theorem save_write (env : Env) (nowMs : Nat) (fuel : Nat) (st : St) (d : Data)
    (hd : st.data = some d)
    (hfit : (record d (nowMs / 1000) (beatFlowOf st)).length ≤ CAP) :
    saveGo env nowMs (fuel + 1) st = { st with slots := writeSlots nowMs st d } := by
  simp only [saveGo, writeSlots, hd]
  rw [if_neg (by omega)]

theorem save_rotate_step (env : Env) (nowMs : Nat) (fuel : Nat) (st : St) (d : Data)
    (hd : st.data = some d)
    (hbig : (record d (nowMs / 1000) (beatFlowOf st)).length > CAP) :
    saveGo env nowMs (fuel + 1) st =
      saveGo env nowMs fuel (rotateState env nowMs { st with slots := writeSlots nowMs st d }) := by
  simp only [saveGo, writeSlots, hd]
  rw [if_pos hbig]

theorem rotateState_free (env : Env) (nowMs : Nat) (st : St) {j : Nat}
    (hfree : findFree st.slots = some j) :
    rotateState env nowMs st =
      { slots := st.slots, sess := some j, data := some (mkData j (nowMs / 1000) env),
        beat := some (rotBeat env nowMs) } := by
  unfold rotateState rotBeat
  simp only [hfree]

/-- Full characterization of an overflowing save when a free slot exists: the
oversized line is written to the old slot first, then exactly one rotation
moves the session to the first free slot, whose fresh record is written by
the inner save; the addon skips the fresh session (zero counters). -/
theorem save_overflow (env : Env) (nowMs : Nat) (st : St) (d : Data) (j : Nat)
    (hd : st.data = some d)
    (hbig : (record d (nowMs / 1000) (beatFlowOf st)).length > CAP)
    (hfree : findFree (writeSlots nowMs st d) = some j)
    (hfit : (rotLine env nowMs j).length ≤ CAP) :
    save env nowMs st =
      { slots := Function.update (writeSlots nowMs st d) j (some (rotLine env nowMs j)),
        sess := some j,
        data := some (mkData j (nowMs / 1000) env),
        beat := some (rotBeat env nowMs) } := by
  unfold save
  rw [save_rotate_step env nowMs 1 st d hd hbig]
  rw [rotateState_free env nowMs _ hfree]
  set d2 := mkData j (nowMs / 1000) env with hd2
  set newB := rotBeat env nowMs with hnb
  set st3 : St := { slots := writeSlots nowMs st d, sess := some j, data := some d2, beat := some newB } with hst3
  have hflow : beatFlowOf st3 = newB.flow := rfl
  have hz : d2.clicks + d2.scrolls = 0 := rfl
  have hfit2 : (record d2 (nowMs / 1000) (beatFlowOf st3)).length ≤ CAP := by
    rw [hflow]
    exact hfit
  rw [save_write env nowMs 0 st3 d2 rfl hfit2]
  unfold writeSlots
  rw [addonStep_zero _ _ _ hz]
  rw [hflow]
  rfl

theorem record_length (d : Data) (n : Nat) (f : String) :
    (record d n f).length =
      (toString d.device).length + (toString d.referrer).length + (toString d.time).length +
      (toString (n - d.time)).length + (toString d.clicks).length + (toString d.scrolls).length +
      f.length + 12 := by
  have hu : ("_" : String).length = 1 := rfl
  have h0 : ("0" : String).length = 1 := rfl
  simp only [record, recFields, joinWith, String.length_append, hu, h0]
  omega

/-- A 64-character filler. -/
def a64 : String := "aaaaaaaaaaaaaaaaaaaaaaaaaaaaaaaaaaaaaaaaaaaaaaaaaaaaaaaaaaaaaaaa"

/-- String doubling, to build a flow beyond the byte cap without deep
kernel recursion. -/
def dblStr (s : String) : String := s ++ s

/-- A 4096-character BEAT flow. -/
def flow4096 : String := dblStr (dblStr (dblStr (dblStr (dblStr (dblStr a64)))))

theorem dblStr_length (s : String) : (dblStr s).length = 2 * s.length := by
  simp only [dblStr, String.length_append]
  omega

theorem flow4096_length : flow4096.length = 4096 := by
  have h64 : a64.length = 64 := by decide
  simp [flow4096, dblStr_length, h64]

/-- The environment of the concrete overflow runs. -/
def envA : Env := { pathname := "/a", device := 0, referrer := 0 }

/-- A codec whose buffered flow exceeds the byte cap. -/
def bigBeat : Beat :=
  { score := [flow4096], table := [], pages := defaultPages, tick := 0, timeUnit := 100 }

/-- A zero-counter session in slot 1. -/
def dOne : Data := { slot := 1, time := 0, device := 0, referrer := 0, clicks := 0, scrolls := 0 }

theorem record_big_length : (record dOne 0 flow4096).length = 4114 := by
  rw [record_length]
  rw [flow4096_length]
  rfl

theorem findFree_writeSlots_ne (nowMs : Nat) (st : St) (d : Data) {j : Nat}
    (hfree : findFree (writeSlots nowMs st d) = some j) : j ≠ d.slot := by
  intro hjd
  unfold findFree at hfree
  have hp := List.find?_some hfree
  rw [hjd] at hp
  unfold slotFree writeSlots at hp
  rw [Function.update_same] at hp
  simp only [decide_eq_true_eq] at hp
  exact record_ne_empty _ _ _ hp

/-- C1 (amended): `Rhythm.save` always writes the serialized line to the
current session's slot — even a line longer than the byte cap — and only the
length of the written line decides what follows: a line within the cap ends
the save with no rotation (session object, codec and slot pointer untouched),
while an oversized line, already persisted to the old slot, triggers exactly
one rotation that moves the session to the first free slot. -/
theorem C1_persist_writes_then_rotates (env : Env) (nowMs : Nat) (st : St) (d : Data)
    (hd : st.data = some d) :
    ((record d (nowMs / 1000) (beatFlowOf st)).length ≤ CAP →
       save env nowMs st = { st with slots := writeSlots nowMs st d }) ∧
    (∀ j, (record d (nowMs / 1000) (beatFlowOf st)).length > CAP →
       findFree (writeSlots nowMs st d) = some j →
       (rotLine env nowMs j).length ≤ CAP →
       (save env nowMs st).slots d.slot = some (record d (nowMs / 1000) (beatFlowOf st)) ∧
       j ≠ d.slot ∧
       (save env nowMs st).data = some (mkData j (nowMs / 1000) env)) := by
  constructor
  · intro hfit
    exact save_write env nowMs 1 st d hd hfit
  · intro j hbig hfree hfit
    have heq := save_overflow env nowMs st d j hd hbig hfree hfit
    have hjd : j ≠ d.slot := findFree_writeSlots_ne nowMs st d hfree
    refine ⟨?_, hjd, ?_⟩
    · rw [heq]
      show Function.update (writeSlots nowMs st d) j (some (rotLine env nowMs j)) d.slot = _
      rw [Function.update_noteq (fun h => hjd h.symm)]
      unfold writeSlots
      exact Function.update_same _ _ _
    · rw [heq]

/-- A small idle state: empty storage, zero-counter session, no codec. -/
def smallSt : St := { slots := fun _ => none, sess := some 1, data := some dOne, beat := none }

/-- C1 witness: a small record is persisted with no rotation. -/
theorem C1_witness :
    smallSt.data = some dOne ∧
    (record dOne (1000 / 1000) (beatFlowOf smallSt)).length ≤ CAP ∧
    save envA 1000 smallSt = { smallSt with slots := writeSlots 1000 smallSt dOne } :=
  ⟨rfl, by decide,
   (C1_persist_writes_then_rotates envA 1000 smallSt dOne rfl).1 (by decide)⟩

/-- The state of the C1 counterexample: the session in slot 1 holds a flow of
4096 characters, so its serialized line has length 4114 > CAP. -/
def c1St : St := { slots := fun _ => none, sess := some 1, data := some dOne, beat := some bigBeat }

theorem findFree_upd1 (line : String) (hne : line ≠ "") :
    findFree (Function.update (fun _ => none) 1 (some line)) = some 2 := by
  have h1 : slotFree (Function.update (fun _ => none) 1 (some line)) 1 = false := by
    unfold slotFree
    rw [Function.update_same]
    simp [hne]
  have h2 : slotFree (Function.update (fun _ => none) 1 (some line)) 2 = true := by
    unfold slotFree
    rw [Function.update_noteq (by decide)]
  unfold findFree
  have hidx : slotIdxs = [1, 2, 3, 4, 5, 6] := rfl
  rw [hidx]
  rw [List.find?_cons, h1, List.find?_cons, h2]

theorem c1_write_eq :
    writeSlots 0 c1St dOne = Function.update (fun _ => none) 1 (some (record dOne 0 flow4096)) := by
  unfold writeSlots
  rw [addonStep_zero c1St.slots c1St.beat.isSome dOne rfl]
  rfl

/-- C1, counterexample to the claim as stated: the oversized serialized line
(4114 bytes, cap 3500) is written to the storage surface — the old slot holds
it after the save — rather than rotation replacing the write. -/
theorem C1_counterexample :
    (record dOne 0 flow4096).length > CAP ∧
    (save envA 0 c1St).slots 1 = some (record dOne 0 flow4096) := by
  have hbig : (record dOne (0 / 1000) (beatFlowOf c1St)).length > CAP := by
    show (record dOne 0 flow4096).length > CAP
    rw [record_big_length]
    decide
  have hfree : findFree (writeSlots 0 c1St dOne) = some 2 := by
    rw [c1_write_eq]
    exact findFree_upd1 _ (record_ne_empty _ _ _)
  have hfit : (rotLine envA 0 2).length ≤ CAP := by decide
  have heq := save_overflow envA 0 c1St dOne 2 rfl hbig hfree hfit
  constructor
  · rw [record_big_length]; decide
  · rw [heq]
    show Function.update (writeSlots 0 c1St dOne) 2 (some (rotLine envA 0 2)) 1 = _
    rw [Function.update_noteq (by decide), c1_write_eq, Function.update_same]

/-- C2 (amended): when a persist overflows the byte cap and a free slot
exists, exactly one rotation occurs: the session moves to the first free
slot with zeroed counters and a fresh codec that starts from an empty flow
(recording only the current page); the old slot keeps the oversized record
it just received and that record still marks the session OPEN — the code
never flips it to CLOSED during rotation — and the rotation itself touches
no other slot, although the triggering save's tab addon may already have
appended a tab-switch marker to the most recently active other OPEN slot. -/
theorem C2_rotation (env : Env) (nowMs : Nat) (st : St) (d : Data) (j : Nat)
    (hd : st.data = some d)
    (hbig : (record d (nowMs / 1000) (beatFlowOf st)).length > CAP)
    (hfree : findFree (writeSlots nowMs st d) = some j)
    (hfit : (rotLine env nowMs j).length ≤ CAP) :
    (save env nowMs st).slots d.slot = some (record d (nowMs / 1000) (beatFlowOf st)) ∧
    (record d (nowMs / 1000) (beatFlowOf st)).data.head? = some '0' ∧
    (save env nowMs st).data = some (mkData j (nowMs / 1000) env) ∧
    (mkData j (nowMs / 1000) env).clicks = 0 ∧
    (mkData j (nowMs / 1000) env).scrolls = 0 ∧
    (save env nowMs st).sess = some j ∧
    (save env nowMs st).beat = some (rotBeat env nowMs) ∧
    (mkBeat nowMs).score = [] ∧
    (save env nowMs st).slots j = some (rotLine env nowMs j) ∧
    (∀ i, i ≠ d.slot → i ≠ j →
       (save env nowMs st).slots i = addonStep st.slots st.beat.isSome d i) ∧
    (∀ i, addonStep st.slots st.beat.isSome d i = st.slots i ∨
       (i ≠ d.slot ∧ ∃ s, st.slots i = some s ∧
          addonStep st.slots st.beat.isSome d i = some (s ++ tabMarker d.slot))) := by
  have heq := save_overflow env nowMs st d j hd hbig hfree hfit
  have hjd : j ≠ d.slot := findFree_writeSlots_ne nowMs st d hfree
  refine ⟨?_, record_head d _ _, by rw [heq], rfl, rfl, by rw [heq], by rw [heq], rfl, ?_, ?_, ?_⟩
  · rw [heq]
    show Function.update (writeSlots nowMs st d) j (some (rotLine env nowMs j)) d.slot = _
    rw [Function.update_noteq (fun h => hjd h.symm)]
    unfold writeSlots
    exact Function.update_same _ _ _
  · rw [heq]
    exact Function.update_same _ _ _
  · intro i hid hij
    rw [heq]
    show Function.update (writeSlots nowMs st d) j (some (rotLine env nowMs j)) i = _
    rw [Function.update_noteq hij]
    unfold writeSlots
    rw [Function.update_noteq hid]
  · intro i
    exact addonStep_cases st.slots st.beat.isSome d i

/-- The state of the C2 counterexample: an overflowing session in slot 1
and an untouched OPEN session in slot 2. -/
def c2St : St :=
  { slots := Function.update (fun _ => none) 2 (some "0_0_0_0_0_5_0_0_0_x"),
    sess := some 1, data := some dOne, beat := some bigBeat }

theorem c2_write_eq :
    writeSlots 0 c2St dOne =
      Function.update (Function.update (fun _ => none) 2 (some "0_0_0_0_0_5_0_0_0_x")) 1
        (some (record dOne 0 flow4096)) := by
  unfold writeSlots
  rw [addonStep_zero c2St.slots c2St.beat.isSome dOne rfl]
  rfl

theorem c2_findFree : findFree (writeSlots 0 c2St dOne) = some 3 := by
  rw [c2_write_eq]
  have h1 : slotFree (Function.update (Function.update (fun _ => none) 2
      (some "0_0_0_0_0_5_0_0_0_x")) 1 (some (record dOne 0 flow4096))) 1 = false := by
    unfold slotFree
    rw [Function.update_same]
    simp [record_ne_empty]
  have h2 : slotFree (Function.update (Function.update (fun _ => none) 2
      (some "0_0_0_0_0_5_0_0_0_x")) 1 (some (record dOne 0 flow4096))) 2 = false := by
    unfold slotFree
    rw [Function.update_noteq (by decide), Function.update_same]
    decide
  have h3 : slotFree (Function.update (Function.update (fun _ => none) 2
      (some "0_0_0_0_0_5_0_0_0_x")) 1 (some (record dOne 0 flow4096))) 3 = true := by
    unfold slotFree
    rw [Function.update_noteq (by decide), Function.update_noteq (by decide)]
  unfold findFree
  have hidx : slotIdxs = [1, 2, 3, 4, 5, 6] := rfl
  rw [hidx]
  rw [List.find?_cons, h1, List.find?_cons, h2, List.find?_cons, h3]

/-- C2, counterexample to the claim as stated: after the overflow in slot 1
the engine does rotate (the session moves to slot 3, slot 2 untouched, fresh
empty flow), but the old slot's record still begins with '0' — the session
there remains OPEN; it never transitions to CLOSED during rotation. -/
theorem C2_counterexample :
    (record dOne 0 flow4096).length > CAP ∧
    (save envA 0 c2St).data = some (mkData 3 0 envA) ∧
    (save envA 0 c2St).slots 2 = some "0_0_0_0_0_5_0_0_0_x" ∧
    (save envA 0 c2St).slots 1 = some (record dOne 0 flow4096) ∧
    (record dOne 0 flow4096).data.head? = some '0' := by
  have hbig : (record dOne (0 / 1000) (beatFlowOf c2St)).length > CAP := by
    show (record dOne 0 flow4096).length > CAP
    rw [record_big_length]
    decide
  have hfit : (rotLine envA 0 3).length ≤ CAP := by decide
  have heq := save_overflow envA 0 c2St dOne 3 rfl hbig c2_findFree hfit
  refine ⟨by rw [record_big_length]; decide, by rw [heq], ?_, ?_, record_head _ _ _⟩
  · rw [heq]
    show Function.update (writeSlots 0 c2St dOne) 3 (some (rotLine envA 0 3)) 2 = _
    rw [Function.update_noteq (by decide), c2_write_eq,
      Function.update_noteq (by decide), Function.update_same]
  · rw [heq]
    show Function.update (writeSlots 0 c2St dOne) 3 (some (rotLine envA 0 3)) 1 = _
    rw [Function.update_noteq (by decide), c2_write_eq, Function.update_same]

/-- C2 witness: the rotation characterization applied at the concrete
overflow state — session moved to slot 3, old record still OPEN. -/
theorem C2_witness :
    c2St.data = some dOne ∧
    (save envA 0 c2St).sess = some 3 ∧
    (save envA 0 c2St).slots 3 = some (rotLine envA 0 3) ∧
    (mkBeat 0).score = [] :=
  have hbig : (record dOne (0 / 1000) (beatFlowOf c2St)).length > CAP := by
    show (record dOne 0 flow4096).length > CAP
    rw [record_big_length]
    decide
  have h := C2_rotation envA 0 c2St dOne 3 rfl hbig c2_findFree (by decide)
  ⟨rfl, h.2.2.2.2.2.1, h.2.2.2.2.2.2.2.2.1, h.2.2.2.2.2.2.2.1⟩

/-- C9 (confirmed): a heartbeat save with no intervening events leaves the
session object and codec untouched and writes a record whose fields other
than the duration (index 6) are independent of the save time — the click
count, scroll count, device, referrer, start time and flow are all persisted
unchanged, only the duration field moves. -/
theorem C9_heartbeat_idempotent (env : Env) (nowMs : Nat) (st : St) (d : Data)
    (hd : st.data = some d)
    (hfire : nowMs / 1000 - d.time > ACT / 2)
    (hfit : (record d (nowMs / 1000) (beatFlowOf st)).length ≤ CAP) :
    (heartbeat env nowMs st).data = st.data ∧
    (heartbeat env nowMs st).beat = st.beat ∧
    (heartbeat env nowMs st).sess = st.sess ∧
    (heartbeat env nowMs st).slots d.slot = some (record d (nowMs / 1000) (beatFlowOf st)) ∧
    (recFields d (nowMs / 1000) (beatFlowOf st)).get? 7 = some (toString d.clicks) ∧
    (recFields d (nowMs / 1000) (beatFlowOf st)).get? 8 = some (toString d.scrolls) ∧
    (∀ (m₁ m₂ i : Nat), i ≠ 6 →
       (recFields d m₁ (beatFlowOf st)).get? i = (recFields d m₂ (beatFlowOf st)).get? i) := by
  have hh : heartbeat env nowMs st = save env nowMs st := by
    unfold heartbeat
    simp only [hd]
    rw [if_pos hfire]
  have hs : save env nowMs st = { st with slots := writeSlots nowMs st d } :=
    save_write env nowMs 1 st d hd hfit
  rw [hh, hs]
  refine ⟨rfl, rfl, rfl, ?_, rfl, rfl, ?_⟩
  · show writeSlots nowMs st d d.slot = _
    unfold writeSlots
    exact Function.update_same _ _ _
  · intro m₁ m₂ i hi
    match i, hi with
    | 0, _ => rfl
    | 1, _ => rfl
    | 2, _ => rfl
    | 3, _ => rfl
    | 4, _ => rfl
    | 5, _ => rfl
    | 7, _ => rfl
    | 8, _ => rfl
    | 9, _ => rfl
    | (n + 10), _ => rfl
    | 6, hi => exact absurd rfl hi

/-- A session with nonzero counters, for the heartbeat witness. -/
def d9 : Data := { slot := 1, time := 0, device := 1, referrer := 2, clicks := 3, scrolls := 4 }

/-- The heartbeat witness state: idle session with counters 3 and 4. -/
def st9 : St := { slots := fun _ => none, sess := some 1, data := some d9, beat := none }

/-- C9 witness: a heartbeat at second 301 on the idle session persists the
unchanged counter fields. -/
theorem C9_witness :
    (heartbeat envA 301000 st9).data = some d9 ∧
    (recFields d9 (301000 / 1000) (beatFlowOf st9)).get? 7 = some (toString d9.clicks) :=
  have h := C9_heartbeat_idempotent envA 301000 st9 d9 rfl (by decide) (by decide)
  ⟨h.1, h.2.2.2.2.1⟩

end Fullscore
